import Mathlib

/-!
Verification of the apartments listing service
(`ApartmentsService` / `ApartmentsController`): a shallow embedding of the
apartment data model, the listing / lookup / mutation operations, and the
statistics report, together with theorems settling the documented
properties of the query layer.

Strings are modelled as lists of characters; the relational store is a
list of `Apartment` records; TypeORM predicates (`Like`, `Between`,
`MoreThanOrEqual`, `LessThanOrEqual`, `Not`, `IsNull`) become boolean
predicates over a record; `ORDER BY` becomes a deterministic insertion
sort; `skip`/`take` become `List.drop`/`List.take`.
-/

namespace ApartmentsSvc

/-- Strings as the character lists the code manipulates. -/
abbrev Str := List Char

/-- `needle.isPrefOf hay`: the first list starts the second
(helper for the `LIKE %s%` substring predicate). -/
def isPrefOf : Str → Str → Bool
  | [], _ => true
  | _ :: _, [] => false
  | c :: cs, d :: ds => c == d && isPrefOf cs ds

/-- `isSubstr needle hay`: `needle` occurs contiguously inside `hay`;
this is the meaning of the SQL pattern `LIKE '%needle%'` used by the
service for `search` and `project` filters. -/
def isSubstr (needle : Str) : Str → Bool
  | [] => isPrefOf needle []
  | d :: ds => isPrefOf needle (d :: ds) || isSubstr needle ds

/-- One row of the `apartments` table (`apartment.entity.ts`), restricted
to the columns the verified operations read or write.  `price` and `area`
are `decimal` columns, modelled exactly as rationals; timestamps are
abstract instants modelled as naturals; `deletedAt` is the nullable
soft-delete marker. -/
structure Apartment where
  id : Nat
  unitName : Str
  unitNumber : Str
  project : Str
  description : Option Str
  price : ℚ
  bedrooms : Nat
  bathrooms : Nat
  area : ℚ
  location : Option Str
  isAvailable : Bool
  slug : Str
  viewCount : Nat
  isFeatured : Bool
  createdAt : Nat
  updatedAt : Nat
  deletedAt : Option Nat
  deriving DecidableEq

/-- The database: the rows of the single `apartments` table, in insertion
order. -/
abbrev Db := List Apartment

/-- Sort keys accepted by the listing endpoint
(`sortBy ∈ price | createdAt | area | bedrooms`). -/
inductive SortBy where
  | price
  | createdAt
  | area
  | bedrooms
  deriving DecidableEq

/-- `sortOrder` request value. -/
inductive SortOrder where
  | ASC
  | DESC
  deriving DecidableEq

/-- `SearchApartmentDto` (`search-apartment.dto.ts`): every optional field
of the listing request contract, including the accepted-but-unused
`type`, `furnishing` and `petFriendly` fields, plus the `sortBy` /
`sortOrder` values the service destructures from the same object. -/
structure SearchApartmentDto where
  search : Option Str
  project : Option Str
  location : Option Str
  minPrice : Option ℚ
  maxPrice : Option ℚ
  bedrooms : Option Nat
  bathrooms : Option Nat
  minArea : Option ℚ
  maxArea : Option ℚ
  aptType : Option Str
  furnishing : Option Str
  petFriendly : Option Bool
  sortBy : Option SortBy
  sortOrder : Option SortOrder
  deriving DecidableEq

/-- Modelled from the spec: `pagination.dto.ts` is not among the sources;
§4.1 gives `page (≥1, default 1)` and `limit (default 10)`, and the
service itself applies the defaults `page = 1`, `limit = 10` when the
fields are absent. -/
structure PaginationDto where
  page : Option Nat
  limit : Option Nat
  deriving DecidableEq

/-- The `whereConditions` object built by `findAllPaginated`
(lines 53–83 of the service): always `isAvailable: true` and
`deletedAt: IsNull()`; `search` and `project` are `Like('%…%')` matches
added only when the string is truthy (non-empty); the price bounds use
`Between` / `MoreThanOrEqual` / `LessThanOrEqual`; `bedrooms` and
`bathrooms` are equality matches.  `location`, `minArea`, `maxArea`,
`type`, `furnishing` and `petFriendly` are never read. -/
def matchesWhere (q : SearchApartmentDto) (a : Apartment) : Bool :=
  a.isAvailable && a.deletedAt == none
    && (match q.search with
        | some s => if s.isEmpty then true else isSubstr s a.unitName
        | none => true)
    && (match q.project with
        | some p => if p.isEmpty then true else isSubstr p a.project
        | none => true)
    && (match q.minPrice, q.maxPrice with
        | some lo, some hi => decide (lo ≤ a.price) && decide (a.price ≤ hi)
        | some lo, none => decide (lo ≤ a.price)
        | none, some hi => decide (a.price ≤ hi)
        | none, none => true)
    && (match q.bedrooms with
        | some b => a.bedrooms == b
        | none => true)
    && (match q.bathrooms with
        | some b => a.bathrooms == b
        | none => true)

/-- Key extracted for `ORDER BY` (all four allowed columns embed into ℚ). -/
def sortKey (sb : SortBy) (a : Apartment) : ℚ :=
  match sb with
  | .price => a.price
  | .createdAt => (a.createdAt : ℚ)
  | .area => a.area
  | .bedrooms => (a.bedrooms : ℚ)

/-- Boolean comparison realising `ORDER BY sortBy sortOrder`. -/
def sortLe (sb : SortBy) (so : SortOrder) (x y : Apartment) : Bool :=
  match so with
  | .ASC => decide (sortKey sb x ≤ sortKey sb y)
  | .DESC => decide (sortKey sb y ≤ sortKey sb x)

/-- Insert into a sorted list: the building block of the deterministic
sort standing in for the store's `ORDER BY`. -/
def insertSorted (le : α → α → Bool) (a : α) : List α → List α
  | [] => [a]
  | b :: t => if le a b then a :: b :: t else b :: insertSorted le a t

/-- Deterministic sort of the matching rows (`ORDER BY` of the store). -/
def sortByLe (le : α → α → Bool) (l : List α) : List α :=
  l.foldr (insertSorted le) []

/-- Pagination block of the listing response. -/
structure PaginationMeta where
  page : Nat
  limit : Nat
  total : Nat
  totalPages : Nat
  hasNext : Bool
  hasPrev : Bool
  deriving DecidableEq

/-- The `filters` echo of the listing response
(lines 115–124 of the service). -/
structure FiltersEcho where
  search : Option Str
  project : Option Str
  minPrice : Option ℚ
  maxPrice : Option ℚ
  bedrooms : Option Nat
  bathrooms : Option Nat
  sortBy : SortBy
  sortOrder : SortOrder
  deriving DecidableEq

/-- `PaginatedApartmentsDto`: the whole listing response. -/
structure PaginatedApartmentsDto where
  data : List Apartment
  pagination : PaginationMeta
  filters : FiltersEcho
  deriving DecidableEq

/-- `Math.ceil(total / limit)` on exact arithmetic. -/
def ceilTotalPages (total limit : Nat) : Nat :=
  (⌈(total : ℚ) / (limit : ℚ)⌉).toNat

/-- `ApartmentsService.findAllPaginated` (lines 33–126): builds the where
conditions, counts and pages the matching rows, and assembles the
response with its pagination metadata and filter echo. -/
def findAllPaginated (q : SearchApartmentDto) (pg : PaginationDto)
    (db : Db) : PaginatedApartmentsDto :=
  let page := pg.page.getD 1
  let limit := pg.limit.getD 10
  let sortBy := q.sortBy.getD .createdAt
  let sortOrder := q.sortOrder.getD .DESC
  let skip := (page - 1) * limit
  let matching := db.filter (matchesWhere q)
  let total := matching.length
  let apartments := ((sortByLe (sortLe sortBy sortOrder) matching).drop skip).take limit
  let totalPages := ceilTotalPages total limit
  { data := apartments
    pagination :=
      { page := page
        limit := limit
        total := total
        totalPages := totalPages
        hasNext := decide (page < totalPages)
        hasPrev := decide (1 < page) }
    filters :=
      { search := q.search
        project := q.project
        minPrice := q.minPrice
        maxPrice := q.maxPrice
        bedrooms := q.bedrooms
        bathrooms := q.bathrooms
        sortBy := sortBy
        sortOrder := sortOrder } }

/-- The row predicate of `findOneWithDetails`:
`{ id, isAvailable: true, deletedAt: IsNull() }`. -/
def visibleWithId (id : Nat) (a : Apartment) : Bool :=
  a.id == id && a.isAvailable && a.deletedAt == none

/-- `ApartmentsService.findOneWithDetails` (lines 131–139). -/
def findOneWithDetails (id : Nat) (db : Db) : Option Apartment :=
  db.find? (visibleWithId id)

/-- `ApartmentsService.incrementViewCount` (lines 255–257):
`repository.increment({ id }, 'viewCount', 1)`. -/
def incrementViewCount (id : Nat) (db : Db) : Db :=
  db.map fun a => if a.id == id then { a with viewCount := a.viewCount + 1 } else a

/-- `ApartmentsController.findOne` (lines 228–263): look the record up
with `findOneWithDetails`; on `null` answer 404 and leave the store
untouched, otherwise increment the view count and return the record. -/
def controllerFindOne (id : Nat) (db : Db) : Option Apartment × Db :=
  match findOneWithDetails id db with
  | none => (none, db)
  | some apt => (some apt, incrementViewCount id db)

/-- The where conditions of `findSimilar`: a different id, the same
bedroom count, price in the inclusive `Between` band of ±20 % of the
target's price, available and non-deleted. -/
def similarWhere (targetId : Nat) (t : Apartment) (a : Apartment) : Bool :=
  !(a.id == targetId) && a.bedrooms == t.bedrooms
    && decide (t.price - t.price * (1 / 5 : ℚ) ≤ a.price)
    && decide (a.price ≤ t.price + t.price * (1 / 5 : ℚ))
    && a.isAvailable && a.deletedAt == none

/-- `ApartmentsService.findSimilar` (lines 233–250): empty when the
target is not visible, otherwise the matching rows ordered by
`viewCount DESC` and truncated to `limit`. -/
def findSimilar (id : Nat) (limit : Nat) (db : Db) : List Apartment :=
  match findOneWithDetails id db with
  | none => []
  | some t =>
    (sortByLe (fun x y => decide (y.viewCount ≤ x.viewCount))
        (db.filter (similarWhere id t))).take limit

/-- `CreateApartmentDto` (`create-apartment.dto.ts`), restricted to the
modelled columns; `isAvailable` is optional with default `true`. -/
structure CreateApartmentDto where
  unitName : Str
  unitNumber : Str
  project : Str
  description : Option Str
  price : ℚ
  bedrooms : Nat
  bathrooms : Nat
  area : ℚ
  location : Option Str
  isAvailable : Option Bool
  deriving DecidableEq

/-- Character class of the slug regex `[a-z0-9]` (the code works on the
lower-cased string, so this is the alphanumeric class of the claim). -/
def isSlugChar (c : Char) : Bool :=
  (decide ('a' ≤ c) && decide (c ≤ 'z')) || (decide ('0' ≤ c) && decide (c ≤ '9'))

/-- `.replace(/[^a-z0-9]+/g, '-')`: every maximal run of characters
outside `[a-z0-9]` becomes a single `'-'`. -/
def collapseNonAlnum : Str → Str
  | [] => []
  | c :: cs =>
    if isSlugChar c then c :: collapseNonAlnum cs
    else '-' :: collapseNonAlnum (cs.dropWhile (fun d => !isSlugChar d))
termination_by l => l.length
decreasing_by
  · simp
  · simp only [List.length_cons]
    exact Nat.lt_succ_of_le (List.dropWhile_sublist _).length_le

/-- Drop one leading `'-'` (one half of `.replace(/(^-|-$)/g, '')`). -/
def dropLeadDash : Str → Str
  | '-' :: t => t
  | l => l

/-- `.replace(/(^-|-$)/g, '')`: remove the leading dash and the trailing
dash, when present. -/
def trimDash (l : Str) : Str :=
  ((dropLeadDash l).reverse |> dropLeadDash).reverse

/-- `ApartmentsService.generateSlug` (lines 388–394): join the two parts
with `'-'`, lower-case, collapse non-alphanumeric runs to `'-'`, trim. -/
def generateSlug (unitName unitNumber : Str) : Str :=
  trimDash (collapseNonAlnum ((unitName ++ '-' :: unitNumber).map Char.toLower))

/-- `ApartmentsService.create` (lines 151–162): persist the dto with the
generated slug, `viewCount = 0` and the entity defaults. -/
def create (c : CreateApartmentDto) (newId now : Nat) (db : Db) : Db :=
  db ++ [{ id := newId
           unitName := c.unitName
           unitNumber := c.unitNumber
           project := c.project
           description := c.description
           price := c.price
           bedrooms := c.bedrooms
           bathrooms := c.bathrooms
           area := c.area
           location := c.location
           isAvailable := c.isAvailable.getD true
           slug := generateSlug c.unitName c.unitNumber
           viewCount := 0
           isFeatured := false
           createdAt := now
           updatedAt := now
           deletedAt := none }]

/-- Modelled from the spec: `update-apartment.dto.ts` is not among the
sources; §4.4 (`update(id, partialData)` overwrites only supplied
fields) together with the creation contract (§4.4 `create`, §6 `PUT`
body = partial creation fields) makes it the all-optional version of
`CreateApartmentDto`. -/
structure UpdateApartmentDto where
  unitName : Option Str
  unitNumber : Option Str
  project : Option Str
  description : Option (Option Str)
  price : Option ℚ
  bedrooms : Option Nat
  bathrooms : Option Nat
  area : Option ℚ
  location : Option (Option Str)
  isAvailable : Option Bool
  deriving DecidableEq

/-- Apply the partial update of `ApartmentsService.update` to one row:
supplied fields overwrite, `updatedAt` is set to now, everything else
(slug, viewCount, deletedAt, createdAt, id) is untouched. -/
def applyUpdate (d : UpdateApartmentDto) (now : Nat) (a : Apartment) : Apartment :=
  { a with
    unitName := d.unitName.getD a.unitName
    unitNumber := d.unitNumber.getD a.unitNumber
    project := d.project.getD a.project
    description := d.description.getD a.description
    price := d.price.getD a.price
    bedrooms := d.bedrooms.getD a.bedrooms
    bathrooms := d.bathrooms.getD a.bathrooms
    area := d.area.getD a.area
    location := d.location.getD a.location
    isAvailable := d.isAvailable.getD a.isAvailable
    updatedAt := now }

/-- Store effect of `ApartmentsService.update` (lines 167–179):
`repository.update(id, {...dto, updatedAt: new Date()})` touches exactly
the rows whose id matches. -/
def updateState (id : Nat) (d : UpdateApartmentDto) (now : Nat) (db : Db) : Db :=
  db.map fun a => if a.id == id then applyUpdate d now a else a

/-- `ApartmentsService.update`: perform the partial update, then re-read
the row through the visible lookup. -/
def update (id : Nat) (d : UpdateApartmentDto) (now : Nat) (db : Db) :
    Option Apartment × Db :=
  let db' := updateState id d now db
  (findOneWithDetails id db', db')

/-- `ApartmentsService.softDelete` (lines 184–197): `false` when the
visible lookup misses, otherwise set `isAvailable = false` and
`deletedAt = now` on the matching rows. -/
def softDelete (id : Nat) (now : Nat) (db : Db) : Bool × Db :=
  match findOneWithDetails id db with
  | none => (false, db)
  | some _ =>
    (true,
      db.map fun a =>
        if a.id == id then { a with isAvailable := false, deletedAt := some now } else a)

/-- Rows a listing/statistics aggregate sees:
`isAvailable = true AND deletedAt IS NULL`. -/
def availableRows (db : Db) : Db :=
  db.filter fun a => a.isAvailable && a.deletedAt == none

/-- SQL `AVG` with the service's `parseFloat(raw?.avg || '0')` fallback:
`0` on an empty set, the mean otherwise. -/
def listAvg (l : List ℚ) : ℚ :=
  if l.length = 0 then 0 else l.sum / l.length

/-- SQL `MIN` with the `parseFloat(raw?.min || '0')` fallback. -/
def listMin : List ℚ → ℚ
  | [] => 0
  | x :: t => t.foldl min x

/-- SQL `MAX` with the `parseFloat(raw?.max || '0')` fallback. -/
def listMax : List ℚ → ℚ
  | [] => 0
  | x :: t => t.foldl max x

/-- One row of the `projectStats` group-by. -/
structure ProjectStat where
  project : Str
  count : Nat
  averagePrice : ℚ
  deriving DecidableEq

/-- One row of the `bedroomDistribution` group-by. -/
structure BedroomStat where
  bedrooms : Nat
  count : Nat
  deriving DecidableEq

/-- The `priceRange` block of the statistics report. -/
structure PriceRange where
  min : ℚ
  max : ℚ
  deriving DecidableEq

/-- `ApartmentStatsDto`: the statistics report. -/
structure ApartmentStatsDto where
  totalApartments : Nat
  availableApartments : Nat
  unavailableApartments : Nat
  averagePrice : ℚ
  priceRange : PriceRange
  projectStats : List ProjectStat
  bedroomDistribution : List BedroomStat
  lastUpdated : Nat
  deriving DecidableEq

/-- `ApartmentsService.getStatistics` (lines 262–327): `totalApartments`
counts rows with `deletedAt IS NULL` only; `availableApartments` counts
rows with `isAvailable = true AND deletedAt IS NULL`;
`unavailableApartments` is their difference; the average, min/max,
per-project and per-bedroom aggregates all carry the
`isAvailable = true AND deletedAt IS NULL` where-clause; `projectStats`
is ordered by count descending and `bedroomDistribution` by bedrooms
ascending. -/
def getStatistics (db : Db) (now : Nat) : ApartmentStatsDto :=
  let avail := availableRows db
  let total := (db.filter fun a => a.deletedAt == none).length
  { totalApartments := total
    availableApartments := avail.length
    unavailableApartments := total - avail.length
    averagePrice := listAvg (avail.map (·.price))
    priceRange :=
      { min := listMin (avail.map (·.price))
        max := listMax (avail.map (·.price)) }
    projectStats :=
      sortByLe (fun x y => decide (y.count ≤ x.count))
        ((avail.map (·.project)).dedup.map fun p =>
          { project := p
            count := (avail.filter fun a => a.project == p).length
            averagePrice := listAvg ((avail.filter fun a => a.project == p).map (·.price)) })
    bedroomDistribution :=
      sortByLe (fun x y => decide (x.bedrooms ≤ y.bedrooms))
        ((avail.map (·.bedrooms)).dedup.map fun b =>
          { bedrooms := b
            count := (avail.filter fun a => a.bedrooms == b).length })
    lastUpdated := now }

/-- The store invariant of the data model: a soft-deleted row
(`deletedAt` non-null) is never available. -/
@[reducible] def DeletedImpliesUnavailable (db : Db) : Prop :=
  ∀ a ∈ db, a.deletedAt ≠ none → a.isAvailable = false

/-- Spec-side reading of a listing record "satisfying all of the supplied
filters": substring matches for `search`, `project` and `location`,
inclusive bounds for the price and area ranges, equality for `bedrooms`
and `bathrooms`, and visibility.  Written from the claim's words, to be
compared with `matchesWhere`, the condition the code actually builds. -/
def specSatisfiesFilters (q : SearchApartmentDto) (a : Apartment) : Bool :=
  a.isAvailable && a.deletedAt == none
    && (match q.search with | some s => isSubstr s a.unitName | none => true)
    && (match q.project with | some p => isSubstr p a.project | none => true)
    && (match q.location with
        | some s => match a.location with | some al => isSubstr s al | none => false
        | none => true)
    && (match q.minPrice with | some lo => decide (lo ≤ a.price) | none => true)
    && (match q.maxPrice with | some hi => decide (a.price ≤ hi) | none => true)
    && (match q.bedrooms with | some b => a.bedrooms == b | none => true)
    && (match q.bathrooms with | some b => a.bathrooms == b | none => true)
    && (match q.minArea with | some lo => decide (lo ≤ a.area) | none => true)
    && (match q.maxArea with | some hi => decide (a.area ≤ hi) | none => true)

/-- The maximal alphanumeric runs of a string, in order: the groups the
slug keeps.  Spec-side counterpart of `collapseNonAlnum` + `trimDash`,
written from the claim's words. -/
def alnumRuns : Str → List Str
  | [] => []
  | c :: cs =>
    if isSlugChar c then
      (c :: cs.takeWhile isSlugChar) :: alnumRuns (cs.dropWhile isSlugChar)
    else alnumRuns (cs.dropWhile (fun d => !isSlugChar d))
termination_by l => l.length
decreasing_by
  · simp only [List.length_cons]
    exact Nat.lt_succ_of_le (List.dropWhile_sublist _).length_le
  · simp only [List.length_cons]
    exact Nat.lt_succ_of_le (List.dropWhile_sublist _).length_le

/-- Join word groups with single dashes. -/
def joinDash : List Str → Str
  | [] => []
  | [r] => r
  | r :: r2 :: rs => r ++ '-' :: joinDash (r2 :: rs)

/-- The slug as the claim describes it: lower-case the two parts joined
by a separator, keep the maximal alphanumeric runs, join them with
single dashes (equivalently: collapse every maximal non-alphanumeric
run to one `'-'` and strip leading/trailing separators). -/
def slugSpec (unitName unitNumber : Str) : Str :=
  joinDash (alnumRuns ((unitName ++ '-' :: unitNumber).map Char.toLower))

/-- The dash the collapse emits before the first alphanumeric run: one
`'-'` exactly when the string starts with a separator. -/
def leadDash (l : Str) : Str :=
  match l.head? with
  | some c => if isSlugChar c then [] else ['-']
  | none => []

/-- The dash the collapse emits after the last alphanumeric run: one
`'-'` exactly when the string ends with a separator. -/
def tailDash (l : Str) : Str :=
  match l.getLast? with
  | some c => if isSlugChar c then [] else ['-']
  | none => []

/-- A concrete visible row used to instantiate the theorems. -/
def apt1 : Apartment :=
  { id := 1
    unitName := ['a', 'p', 't']
    unitNumber := ['n', '1']
    project := ['p', 'r', 'j']
    description := some ['d']
    price := 1000
    bedrooms := 2
    bathrooms := 1
    area := 50
    location := some ['x']
    isAvailable := true
    slug := []
    viewCount := 0
    isFeatured := false
    createdAt := 0
    updatedAt := 0
    deletedAt := none }

/-- A second visible row, same bedroom count, close price, more views. -/
def apt2 : Apartment :=
  { apt1 with
    id := 2
    unitName := ['o', 't', 'h']
    unitNumber := ['n', '2']
    price := 1100
    viewCount := 7 }

/-- A soft-deleted row. -/
def apt3 : Apartment :=
  { apt1 with
    id := 3
    unitNumber := ['n', '3']
    isAvailable := false
    deletedAt := some 4 }

/-- The empty listing request: every filter absent. -/
def q0 : SearchApartmentDto :=
  { search := none
    project := none
    location := none
    minPrice := none
    maxPrice := none
    bedrooms := none
    bathrooms := none
    minArea := none
    maxArea := none
    aptType := none
    furnishing := none
    petFriendly := none
    sortBy := none
    sortOrder := none }

/-- The empty pagination request (service defaults apply). -/
def pg0 : PaginationDto := { page := none, limit := none }

/-- The empty partial update. -/
def d0 : UpdateApartmentDto :=
  { unitName := none
    unitNumber := none
    project := none
    description := none
    price := none
    bedrooms := none
    bathrooms := none
    area := none
    location := none
    isAvailable := none }

/-- A concrete creation payload. -/
def c0 : CreateApartmentDto :=
  { unitName := ['N', 'e', 'w', ' ', 'F', 'l', 'a', 't']
    unitNumber := ['B', '2']
    project := ['p', 'r', 'j']
    description := none
    price := 900
    bedrooms := 1
    bathrooms := 1
    area := 40
    location := none
    isAvailable := none }

/-! ### Library lemmas about the sort and the lookup -/

theorem mem_insertSorted (le : α → α → Bool) (x a : α) (l : List α) :
    a ∈ insertSorted le x l ↔ a = x ∨ a ∈ l := by
  induction l with
  | nil => simp [insertSorted]
  | cons b t ih =>
    simp only [insertSorted]
    split
    · simp [List.mem_cons]
    · simp only [List.mem_cons, ih]
      tauto

theorem mem_sortByLe (le : α → α → Bool) (a : α) (l : List α) :
    a ∈ sortByLe le l ↔ a ∈ l := by
  induction l with
  | nil => simp [sortByLe]
  | cons b t ih =>
    rw [show sortByLe le (b :: t) = insertSorted le b (sortByLe le t) from rfl,
      mem_insertSorted]
    simp [List.mem_cons, ih]

theorem pairwise_insertSorted {le : α → α → Bool}
    (htot : ∀ a b, le a b = false → le b a = true)
    (htrans : ∀ a b c, le a b = true → le b c = true → le a c = true)
    (x : α) (l : List α) (hl : l.Pairwise (fun u v => le u v = true)) :
    (insertSorted le x l).Pairwise (fun u v => le u v = true) := by
  induction l with
  | nil => simp [insertSorted]
  | cons b t ih =>
    obtain ⟨hb, ht⟩ := List.pairwise_cons.1 hl
    simp only [insertSorted]
    split
    · rename_i hxb
      refine List.pairwise_cons.2 ⟨?_, hl⟩
      intro y hy
      rcases List.mem_cons.1 hy with rfl | hyt
      · exact hxb
      · exact htrans _ _ _ hxb (hb y hyt)
    · rename_i hxb
      refine List.pairwise_cons.2 ⟨?_, ih ht⟩
      intro y hy
      rcases (mem_insertSorted le x y t).1 hy with rfl | hyt
      · exact htot _ _ (Bool.not_eq_true _ ▸ (by simpa using hxb))
      · exact hb y hyt

theorem pairwise_sortByLe {le : α → α → Bool}
    (htot : ∀ a b, le a b = false → le b a = true)
    (htrans : ∀ a b c, le a b = true → le b c = true → le a c = true)
    (l : List α) :
    (sortByLe le l).Pairwise (fun u v => le u v = true) := by
  induction l with
  | nil => simp [sortByLe]
  | cons b t ih =>
    exact pairwise_insertSorted htot htrans b (sortByLe le t) ih

/-- Every record of a listing page comes from the store and passes the
where conditions. -/
theorem mem_listing_data {q : SearchApartmentDto} {pg : PaginationDto}
    {db : Db} {a : Apartment} (ha : a ∈ (findAllPaginated q pg db).data) :
    a ∈ db ∧ matchesWhere q a = true := by
  have h1 : a ∈ sortByLe (sortLe (q.sortBy.getD .createdAt) (q.sortOrder.getD .DESC))
      (db.filter (matchesWhere q)) :=
    (List.drop_sublist _ _).subset ((List.take_sublist _ _).subset ha)
  have h2 : a ∈ db.filter (matchesWhere q) := (mem_sortByLe _ _ _).1 h1
  exact ⟨List.mem_filter.1 h2 |>.1, List.mem_filter.1 h2 |>.2⟩

/-- The empty needle is a substring of everything. -/
theorem isSubstr_nil (h : Str) : isSubstr [] h = true := by
  cases h <;> simp [isSubstr, isPrefOf]

/-- `Math.ceil(total / limit)` agrees with natural ceiling division. -/
theorem ceilTotalPages_spec (t l : Nat) (hl : 1 ≤ l) :
    (ceilTotalPages t l : ℤ) = ⌈(t : ℚ) / (l : ℚ)⌉ ∧
      ceilTotalPages t l = (t + l - 1) / l := by
  have hl0 : (0 : ℚ) < (l : ℚ) := by exact_mod_cast hl
  have hnn : (0 : ℚ) ≤ (t : ℚ) / (l : ℚ) := div_nonneg (by positivity) hl0.le
  have hc0 : 0 ≤ ⌈(t : ℚ) / (l : ℚ)⌉ := Int.ceil_nonneg hnn
  have key : ⌈(t : ℚ) / (l : ℚ)⌉ = (((t + l - 1) / l : ℕ) : ℤ) := by
    have hub : ⌈(t : ℚ) / (l : ℚ)⌉ ≤ (((t + l - 1) / l : ℕ) : ℤ) := by
      apply Int.ceil_le.2
      rw [div_le_iff₀ hl0]
      have hnat : t ≤ ((t + l - 1) / l) * l := by
        have hdm := Nat.div_add_mod (t + l - 1) l
        have hmod := Nat.mod_lt (t + l - 1) (show 0 < l by omega)
        rw [Nat.mul_comm]
        omega
      exact_mod_cast hnat
    have hlb : (((t + l - 1) / l : ℕ) : ℤ) ≤ ⌈(t : ℚ) / (l : ℚ)⌉ := by
      have hq : (t : ℚ) ≤ ((⌈(t : ℚ) / (l : ℚ)⌉ : ℚ)) * l := by
        have := Int.le_ceil ((t : ℚ) / (l : ℚ))
        calc (t : ℚ) = (t : ℚ) / l * l := by field_simp
          _ ≤ (⌈(t : ℚ) / (l : ℚ)⌉ : ℚ) * l := by
              exact mul_le_mul_of_nonneg_right this hl0.le
      have hz : t ≤ ⌈(t : ℚ) / (l : ℚ)⌉.toNat * l := by
        have : (t : ℚ) ≤ ((⌈(t : ℚ) / (l : ℚ)⌉.toNat : ℕ) : ℚ) * l := by
          rwa [show ((⌈(t : ℚ) / (l : ℚ)⌉.toNat : ℕ) : ℚ) = ((⌈(t : ℚ) / (l : ℚ)⌉ : ℤ) : ℚ) by
            exact_mod_cast congrArg (fun z => ((z : ℤ) : ℚ)) (Int.toNat_of_nonneg hc0)]
        exact_mod_cast this
      have hnat : (t + l - 1) / l ≤ ⌈(t : ℚ) / (l : ℚ)⌉.toNat := by
        rw [Nat.div_le_iff_le_mul_add_pred (show 0 < l by omega)]
        rw [Nat.mul_comm] at hz
        omega
      calc (((t + l - 1) / l : ℕ) : ℤ) ≤ (⌈(t : ℚ) / (l : ℚ)⌉.toNat : ℤ) := by
            exact_mod_cast hnat
        _ = ⌈(t : ℚ) / (l : ℚ)⌉ := Int.toNat_of_nonneg hc0
    exact le_antisymm hub hlb
  constructor
  · rw [ceilTotalPages, Int.toNat_of_nonneg hc0]
  · have : (ceilTotalPages t l : ℤ) = (((t + l - 1) / l : ℕ) : ℤ) := by
      rw [ceilTotalPages, Int.toNat_of_nonneg hc0, key]
    exact_mod_cast this

/-! ### Claim theorems -/

/-- C9: two listing requests that agree on every field except `type`,
`furnishing` and `petFriendly` produce identical responses — those three
accepted filter fields have no effect on the query. -/
theorem c9_unused_filters_no_effect (q1 q2 : SearchApartmentDto)
    (pg : PaginationDto) (db : Db)
    (hs : q1.search = q2.search) (hp : q1.project = q2.project)
    (hl : q1.location = q2.location) (hmin : q1.minPrice = q2.minPrice)
    (hmax : q1.maxPrice = q2.maxPrice) (hbed : q1.bedrooms = q2.bedrooms)
    (hbath : q1.bathrooms = q2.bathrooms) (hma : q1.minArea = q2.minArea)
    (hxa : q1.maxArea = q2.maxArea) (hsb : q1.sortBy = q2.sortBy)
    (hso : q1.sortOrder = q2.sortOrder) :
    findAllPaginated q1 pg db = findAllPaginated q2 pg db := by
  cases q1
  cases q2
  simp only at hs hp hl hmin hmax hbed hbath hma hxa hsb hso
  subst hs hp hl hmin hmax hbed hbath hma hxa hsb hso
  rfl

/-- C9 witness: a request with `type`, `furnishing` and `petFriendly`
set gives the same response as the empty request. -/
theorem c9_unused_filters_no_effect_witness :
    findAllPaginated
        { q0 with
          aptType := some ['S']
          furnishing := some ['F']
          petFriendly := some true } pg0 [apt1]
      = findAllPaginated q0 pg0 [apt1] :=
  c9_unused_filters_no_effect _ _ _ _ rfl rfl rfl rfl rfl rfl rfl rfl rfl rfl rfl

/-- C10: a non-empty search text is applied as a substring match on
`unitName` only: every listed record's `unitName` contains it, and a
stored record whose `project`, `unitNumber` or `description` contains it
but whose `unitName` does not is excluded from the listing. -/
theorem c10_search_unitName_only (s : Str) (q : SearchApartmentDto)
    (pg : PaginationDto) (db : Db) (hq : q.search = some s) (hs : s ≠ []) :
    (∀ a ∈ (findAllPaginated q pg db).data, isSubstr s a.unitName = true) ∧
    (∀ b ∈ db, isSubstr s b.unitName = false →
      (isSubstr s b.project = true ∨ isSubstr s b.unitNumber = true ∨
        (∃ d, b.description = some d ∧ isSubstr s d = true)) →
      b ∉ (findAllPaginated q pg db).data) := by
  have hmain : ∀ a ∈ (findAllPaginated q pg db).data, isSubstr s a.unitName = true := by
    intro a ha
    have hm := (mem_listing_data ha).2
    rw [matchesWhere] at hm
    simp only [Bool.and_eq_true] at hm
    have hsm := hm.1.1.1.1.2
    rw [hq] at hsm
    cases s with
    | nil => exact absurd rfl hs
    | cons c t => simpa using hsm
  refine ⟨hmain, ?_⟩
  intro b _ hfalse _ hmem
  have htrue := hmain b hmem
  rw [hfalse] at htrue
  exact Bool.false_ne_true htrue

/-- C10 witness: searching for `prj` excludes `apt1`, whose project is
`prj` but whose unit name `apt` does not contain it, and every listed
record's unit name contains `prj`. -/
theorem c10_search_unitName_only_witness :
    isSubstr ['p', 'r', 'j'] apt1.project = true ∧
    isSubstr ['p', 'r', 'j'] apt1.unitName = false ∧
    apt1 ∉ (findAllPaginated { q0 with search := some ['p', 'r', 'j'] } pg0 [apt1]).data :=
  ⟨by decide, by decide,
    (c10_search_unitName_only ['p', 'r', 'j']
        { q0 with search := some ['p', 'r', 'j'] } pg0 [apt1] rfl (by decide)).2
      apt1 (by decide) (by decide) (Or.inl (by decide))⟩

/-- C1 counterexample: a listing request whose only filter is
`minArea = 100` returns `apt1`, whose area is 50 — a returned record
that does not satisfy a supplied filter, refuting the claim as stated
(`findAllPaginated` never applies `location`, `minArea`, `maxArea`). -/
theorem c1_filters_claim_counterexample :
    apt1 ∈ (findAllPaginated { q0 with minArea := some 100 } pg0 [apt1]).data ∧
      specSatisfiesFilters { q0 with minArea := some 100 } apt1 = false := by
  decide

/-- C1 (amended): every record of a listing response is available and
non-deleted and satisfies the supplied `search`, `project`, `minPrice`,
`maxPrice`, `bedrooms` and `bathrooms` filters; the supplied `location`,
`minArea` and `maxArea` filters are not applied (the response does not
depend on them). -/
theorem c1_listing_filters_amended (q : SearchApartmentDto) (pg : PaginationDto)
    (db : Db) (a : Apartment) (ha : a ∈ (findAllPaginated q pg db).data) :
    a.isAvailable = true ∧ a.deletedAt = none ∧
    (∀ s, q.search = some s → isSubstr s a.unitName = true) ∧
    (∀ p, q.project = some p → isSubstr p a.project = true) ∧
    (∀ lo, q.minPrice = some lo → lo ≤ a.price) ∧
    (∀ hi, q.maxPrice = some hi → a.price ≤ hi) ∧
    (∀ n, q.bedrooms = some n → a.bedrooms = n) ∧
    (∀ n, q.bathrooms = some n → a.bathrooms = n) ∧
    (∀ loc ma xa,
      findAllPaginated { q with location := loc, minArea := ma, maxArea := xa } pg db
        = findAllPaginated q pg db) := by
  have hm := (mem_listing_data ha).2
  rw [matchesWhere] at hm
  simp only [Bool.and_eq_true] at hm
  obtain ⟨⟨⟨⟨⟨⟨hav, hdel⟩, hsearch⟩, hproj⟩, hprice⟩, hbed⟩, hbath⟩ := hm
  refine ⟨hav, by simpa using hdel, ?_, ?_, ?_, ?_, ?_, ?_, ?_⟩
  · intro s hs
    rw [hs] at hsearch
    cases s with
    | nil => exact isSubstr_nil _
    | cons c t => simpa using hsearch
  · intro p hp
    rw [hp] at hproj
    cases p with
    | nil => exact isSubstr_nil _
    | cons c t => simpa using hproj
  · intro lo hlo
    rw [hlo] at hprice
    cases hhi : q.maxPrice with
    | none => rw [hhi] at hprice; exact of_decide_eq_true hprice
    | some hi =>
      rw [hhi] at hprice
      simp only [Bool.and_eq_true] at hprice
      exact of_decide_eq_true hprice.1
  · intro hi hhi
    rw [hhi] at hprice
    cases hlo : q.minPrice with
    | none => rw [hlo] at hprice; exact of_decide_eq_true hprice
    | some lo =>
      rw [hlo] at hprice
      simp only [Bool.and_eq_true] at hprice
      exact of_decide_eq_true hprice.2
  · intro n hn
    rw [hn] at hbed
    simpa using hbed
  · intro n hn
    rw [hn] at hbath
    simpa using hbath
  · intro loc ma xa
    cases q
    rfl

/-- C1 amended witness: with `minPrice = 500` and `bedrooms = 2`
supplied, the returned record `apt1` satisfies both filters and is
visible, and the ignored filters do not change the response. -/
theorem c1_listing_filters_amended_witness :
    apt1.isAvailable = true ∧ apt1.deletedAt = none ∧
    (500 : ℚ) ≤ apt1.price ∧ apt1.bedrooms = 2 ∧
    findAllPaginated
        { ({ q0 with minPrice := some 500, bedrooms := some 2 } : SearchApartmentDto) with
          location := some ['z'], minArea := some 90, maxArea := some 95 } pg0 [apt1, apt3]
      = findAllPaginated { q0 with minPrice := some 500, bedrooms := some 2 } pg0
          [apt1, apt3] := by
  have h := c1_listing_filters_amended { q0 with minPrice := some 500, bedrooms := some 2 }
    pg0 [apt1, apt3] apt1 (by decide)
  exact ⟨h.1, h.2.1, h.2.2.2.2.1 500 rfl, h.2.2.2.2.2.2.1 2 rfl,
    h.2.2.2.2.2.2.2.2 (some ['z']) (some 90) (some 95)⟩

/-- C2: the pagination metadata of every listing response satisfies
`totalPages = ⌈total / limit⌉` (equivalently the natural-number formula
`(total + limit - 1) / limit`), `hasNext ↔ page < totalPages`,
`hasPrev ↔ page > 1`, the page of records starts at offset
`(page - 1) × limit`, and `page = 1` with `totalPages = 1` yields
`hasNext = false` and `hasPrev = false`. -/
theorem c2_pagination_metadata (q : SearchApartmentDto) (pg : PaginationDto)
    (db : Db) (hl : 1 ≤ pg.limit.getD 10) :
    (findAllPaginated q pg db).pagination.totalPages
        = ((findAllPaginated q pg db).pagination.total + pg.limit.getD 10 - 1)
            / pg.limit.getD 10 ∧
    ((findAllPaginated q pg db).pagination.totalPages : ℤ)
        = ⌈((findAllPaginated q pg db).pagination.total : ℚ) / (pg.limit.getD 10 : ℚ)⌉ ∧
    ((findAllPaginated q pg db).pagination.hasNext = true ↔
        pg.page.getD 1 < (findAllPaginated q pg db).pagination.totalPages) ∧
    ((findAllPaginated q pg db).pagination.hasPrev = true ↔ 1 < pg.page.getD 1) ∧
    (findAllPaginated q pg db).data =
      ((sortByLe (sortLe (q.sortBy.getD .createdAt) (q.sortOrder.getD .DESC))
          (db.filter (matchesWhere q))).drop
        ((pg.page.getD 1 - 1) * pg.limit.getD 10)).take (pg.limit.getD 10) ∧
    (pg.page.getD 1 = 1 → (findAllPaginated q pg db).pagination.totalPages = 1 →
      (findAllPaginated q pg db).pagination.hasNext = false ∧
      (findAllPaginated q pg db).pagination.hasPrev = false) := by
  refine ⟨(ceilTotalPages_spec _ _ hl).2, (ceilTotalPages_spec _ _ hl).1, ?_, ?_, rfl, ?_⟩
  · exact decide_eq_true_iff
  · exact decide_eq_true_iff
  · intro h1 h2
    constructor
    · have hrw : (findAllPaginated q pg db).pagination.hasNext
          = decide (pg.page.getD 1 < (findAllPaginated q pg db).pagination.totalPages) := rfl
      rw [hrw, h1, h2]
      decide
    · have hrw : (findAllPaginated q pg db).pagination.hasPrev
          = decide (1 < pg.page.getD 1) := rfl
      rw [hrw, h1]
      decide

/-- C2 witness: the default request (`page = 1`, `limit = 10`) over a
one-row store gives `totalPages = 1`, `hasNext = false`,
`hasPrev = false`, and the offset-0 page. -/
theorem c2_pagination_metadata_witness :
    (findAllPaginated q0 pg0 [apt1]).pagination.totalPages
        = ((findAllPaginated q0 pg0 [apt1]).pagination.total + pg0.limit.getD 10 - 1)
            / pg0.limit.getD 10 ∧
    ((findAllPaginated q0 pg0 [apt1]).pagination.totalPages : ℤ)
        = ⌈((findAllPaginated q0 pg0 [apt1]).pagination.total : ℚ)
            / (pg0.limit.getD 10 : ℚ)⌉ ∧
    (findAllPaginated q0 pg0 [apt1]).data =
      ((sortByLe (sortLe (q0.sortBy.getD .createdAt) (q0.sortOrder.getD .DESC))
          ([apt1].filter (matchesWhere q0))).drop
        ((pg0.page.getD 1 - 1) * pg0.limit.getD 10)).take (pg0.limit.getD 10) ∧
    (findAllPaginated q0 pg0 [apt1]).pagination.hasNext = false ∧
    (findAllPaginated q0 pg0 [apt1]).pagination.hasPrev = false := by
  have h := c2_pagination_metadata q0 pg0 [apt1] (by decide)
  have htp : (findAllPaginated q0 pg0 [apt1]).pagination.totalPages = 1 := by
    rw [h.1]
    decide
  exact ⟨h.1, h.2.1, h.2.2.2.2.1,
    (h.2.2.2.2.2 rfl htp).1, (h.2.2.2.2.2 rfl htp).2⟩

/-- Incrementing the view count does not change which record the visible
lookup finds — only its `viewCount`. -/
theorem findOne_incrementViewCount (id : Nat) (db : Db) (a : Apartment)
    (ha : findOneWithDetails id db = some a) :
    findOneWithDetails id (incrementViewCount id db)
      = some { a with viewCount := a.viewCount + 1 } := by
  have hcomp : (visibleWithId id ∘ fun b =>
      if b.id == id then { b with viewCount := b.viewCount + 1 } else b)
        = visibleWithId id := by
    funext b
    simp only [Function.comp_apply]
    split <;> simp [visibleWithId]
  have hpa : visibleWithId id a = true := List.find?_some ha
  have haid : a.id = id := by
    have := hpa
    simp only [visibleWithId, Bool.and_eq_true, beq_iff_eq] at this
    exact this.1.1
  rw [findOneWithDetails, incrementViewCount, List.find?_map, hcomp,
    show db.find? (visibleWithId id) = some a from ha]
  simp [haid]

/-- C3: the id lookup of the controller returns the record exactly when a
row with that id is available and non-deleted, and otherwise reports
NotFound and leaves the store untouched; each successful fetch bumps
exactly that record's `viewCount` by 1 (changing nothing else), so three
sequential successful fetches starting at `viewCount = 0` leave it at 3. -/
theorem c3_getById_viewCount (id : Nat) (db : Db) :
    (findOneWithDetails id db = none ↔
      ∀ b ∈ db, ¬(b.id = id ∧ b.isAvailable = true ∧ b.deletedAt = none)) ∧
    (findOneWithDetails id db = none → controllerFindOne id db = (none, db)) ∧
    (∀ a, findOneWithDetails id db = some a →
      a.id = id ∧ a.isAvailable = true ∧ a.deletedAt = none ∧
      (controllerFindOne id db).1 = some a ∧
      (controllerFindOne id db).2 = incrementViewCount id db ∧
      (∀ i : Nat, (incrementViewCount id db)[i]? = db[i]?.map
        (fun (b : Apartment) =>
          if b.id == id then { b with viewCount := b.viewCount + 1 } else b)) ∧
      findOneWithDetails id (controllerFindOne id db).2
        = some { a with viewCount := a.viewCount + 1 } ∧
      (a.viewCount = 0 →
        findOneWithDetails id
            (controllerFindOne id
              ((controllerFindOne id ((controllerFindOne id db).2)).2)).2
          = some { a with viewCount := 3 })) := by
  refine ⟨?_, ?_, ?_⟩
  · rw [findOneWithDetails, List.find?_eq_none]
    constructor
    · intro h b hb
      have := h b hb
      simp only [visibleWithId, Bool.and_eq_true, beq_iff_eq] at this
      tauto
    · intro h b hb
      have := h b hb
      simp only [visibleWithId, Bool.and_eq_true, beq_iff_eq]
      tauto
  · intro h
    rw [controllerFindOne, h]
  · intro a ha
    have hpa : visibleWithId id a = true := List.find?_some ha
    simp only [visibleWithId, Bool.and_eq_true, beq_iff_eq] at hpa
    obtain ⟨⟨haid, hav⟩, hdel⟩ := hpa
    have hfst : (controllerFindOne id db).1 = some a := by
      rw [controllerFindOne, ha]
    have hsnd : (controllerFindOne id db).2 = incrementViewCount id db := by
      rw [controllerFindOne, ha]
    have hstep1 := findOne_incrementViewCount id db a ha
    refine ⟨haid, hav, hdel, hfst, hsnd, ?_, by rw [hsnd]; exact hstep1, ?_⟩
    · intro i
      exact List.getElem?_map _ _ _
    · intro hv
      have h1 : findOneWithDetails id (controllerFindOne id db).2
          = some { a with viewCount := a.viewCount + 1 } := by
        rw [hsnd]; exact hstep1
      have hsnd2 : (controllerFindOne id (controllerFindOne id db).2).2
          = incrementViewCount id (controllerFindOne id db).2 := by
        rw [controllerFindOne, h1]
      have h2 := findOne_incrementViewCount id (controllerFindOne id db).2 _ h1
      rw [← hsnd2] at h2
      have hsnd3 : (controllerFindOne id
            ((controllerFindOne id ((controllerFindOne id db).2)).2)).2
          = incrementViewCount id ((controllerFindOne id ((controllerFindOne id db).2)).2) := by
        rw [controllerFindOne, h2]
      have h3 := findOne_incrementViewCount id
        ((controllerFindOne id ((controllerFindOne id db).2)).2) _ h2
      rw [← hsnd3] at h3
      rw [h3, hv]

/-- C3 witness: on a one-row store holding `apt1` (id 1, viewCount 0),
the wrong id reports NotFound without touching the store, and three
sequential fetches of id 1 leave the view count at 3. -/
theorem c3_getById_viewCount_witness :
    (findOneWithDetails 1 [apt1] = some apt1) ∧
    (controllerFindOne 9 [apt1] = (none, [apt1])) ∧
    apt1.id = 1 ∧ apt1.isAvailable = true ∧ apt1.deletedAt = none ∧
    (controllerFindOne 1 [apt1]).1 = some apt1 ∧
    findOneWithDetails 1 (controllerFindOne 1 [apt1]).2
      = some { apt1 with viewCount := apt1.viewCount + 1 } ∧
    findOneWithDetails 1
        (controllerFindOne 1
          ((controllerFindOne 1 ((controllerFindOne 1 [apt1]).2)).2)).2
      = some { apt1 with viewCount := 3 } := by
  have h := (c3_getById_viewCount 1 [apt1]).2.2 apt1 (by decide)
  have h9 := (c3_getById_viewCount 9 [apt1]).2.1 (by decide)
  exact ⟨by decide, h9, h.1, h.2.1, h.2.2.1, h.2.2.2.1,
    h.2.2.2.2.2.2.1, h.2.2.2.2.2.2.2 (by decide)⟩

/-- C5: soft-deleting a visible record succeeds, keeps the store size,
stores the record with `isAvailable = false` and `deletedAt = now` while
every other field (and every other record) is unchanged; afterwards the
record is invisible to `getById` and to listings, and a second
`softDelete` of the same id reports NotFound and changes nothing. -/
theorem c5_softDelete (id now : Nat) (db : Db) (a : Apartment)
    (ha : findOneWithDetails id db = some a) :
    (softDelete id now db).1 = true ∧
    (softDelete id now db).2.length = db.length ∧
    (∃ b ∈ (softDelete id now db).2, b.id = a.id ∧ b.isAvailable = false ∧
      b.deletedAt = some now ∧ b.unitName = a.unitName ∧
      b.unitNumber = a.unitNumber ∧ b.project = a.project ∧
      b.description = a.description ∧ b.price = a.price ∧
      b.bedrooms = a.bedrooms ∧ b.bathrooms = a.bathrooms ∧ b.area = a.area ∧
      b.location = a.location ∧ b.slug = a.slug ∧ b.viewCount = a.viewCount ∧
      b.isFeatured = a.isFeatured ∧ b.createdAt = a.createdAt ∧
      b.updatedAt = a.updatedAt) ∧
    (∀ b ∈ db, b.id ≠ id → b ∈ (softDelete id now db).2) ∧
    findOneWithDetails id (softDelete id now db).2 = none ∧
    (∀ now2, softDelete id now2 (softDelete id now db).2
      = (false, (softDelete id now db).2)) ∧
    (∀ q pg, ∀ b ∈ (findAllPaginated q pg (softDelete id now db).2).data,
      b.id ≠ id) := by
  have haid : a.id = id := by
    have := List.find?_some ha
    simp only [visibleWithId, Bool.and_eq_true, beq_iff_eq] at this
    exact this.1.1
  have hmem : a ∈ db := List.mem_of_find?_eq_some ha
  have hout : softDelete id now db
      = (true, db.map fun b =>
          if b.id == id then { b with isAvailable := false, deletedAt := some now }
          else b) := by
    rw [softDelete, ha]
  have hgone : findOneWithDetails id (softDelete id now db).2 = none := by
    rw [hout, findOneWithDetails, List.find?_map, Option.map_eq_none',
      List.find?_eq_none]
    intro b _
    simp only [Function.comp_apply]
    by_cases hb : b.id = id
    · simp [hb, visibleWithId]
    · simp [visibleWithId, hb, if_neg (by simpa using hb)]
  refine ⟨by rw [hout], by rw [hout]; exact db.length_map _, ?_, ?_, hgone, ?_, ?_⟩
  · refine ⟨{ a with isAvailable := false, deletedAt := some now }, ?_, ?_⟩
    · rw [hout]
      refine List.mem_map.2 ⟨a, hmem, ?_⟩
      simp [haid]
    · refine ⟨rfl, rfl, rfl, rfl, rfl, rfl, rfl, rfl, rfl, rfl, rfl, rfl, rfl,
        rfl, rfl, rfl, rfl⟩
  · intro b hb hbid
    rw [hout]
    refine List.mem_map.2 ⟨b, hb, ?_⟩
    simp [if_neg (by simpa using hbid)]
  · intro now2
    rw [softDelete, hgone]
  · intro q pg b hb hbid
    obtain ⟨hbmem, hbmatch⟩ := mem_listing_data hb
    have hbav : b.isAvailable = true := by
      rw [matchesWhere] at hbmatch
      simp only [Bool.and_eq_true] at hbmatch
      exact hbmatch.1.1.1.1.1.1
    rw [hout] at hbmem
    obtain ⟨o, _, hfo⟩ := List.mem_map.1 hbmem
    by_cases ho : o.id = id
    · rw [if_pos (by simpa using ho)] at hfo
      rw [← hfo] at hbav
      simp at hbav
    · rw [if_neg (by simpa using ho)] at hfo
      rw [← hfo] at hbid
      exact ho hbid

/-- C5 witness: soft-deleting id 1 in `[apt1, apt2]` at time 5 succeeds,
keeps both rows, stores `apt1` as unavailable/deleted, hides it from the
lookup and from listings, and a second call reports NotFound. -/
theorem c5_softDelete_witness :
    (softDelete 1 5 [apt1, apt2]).1 = true ∧
    (softDelete 1 5 [apt1, apt2]).2.length = 2 ∧
    ({ apt1 with isAvailable := false, deletedAt := some 5 }
      ∈ (softDelete 1 5 [apt1, apt2]).2) ∧
    apt2 ∈ (softDelete 1 5 [apt1, apt2]).2 ∧
    findOneWithDetails 1 (softDelete 1 5 [apt1, apt2]).2 = none ∧
    softDelete 1 9 (softDelete 1 5 [apt1, apt2]).2
      = (false, (softDelete 1 5 [apt1, apt2]).2) ∧
    (findAllPaginated q0 pg0 (softDelete 1 5 [apt1, apt2]).2).data = [apt2] := by
  have h := c5_softDelete 1 5 [apt1, apt2] apt1 (by decide)
  exact ⟨h.1, h.2.1, by decide, h.2.2.2.1 apt2 (by decide) (by decide),
    h.2.2.2.2.1, h.2.2.2.2.2.1 9, by decide⟩

/-- C6 counterexample: the invariant `deletedAt ≠ null → isAvailable =
false` holds of the store `[apt3]`, but an update payload with
`isAvailable := true` applied to the soft-deleted row 3 breaks it —
`ApartmentsService.update` writes by id without checking `deletedAt`. -/
theorem c6_invariant_counterexample :
    DeletedImpliesUnavailable [apt3] ∧
      ¬ DeletedImpliesUnavailable
          (updateState 3 { d0 with isAvailable := some true } 9 [apt3]) := by
  decide

/-- C6 (amended): `create`, `softDelete` and `incrementViewCount`
preserve the invariant that a soft-deleted record is unavailable, and
`update` preserves it as long as the payload does not set
`isAvailable = true`; an update that sets `isAvailable = true` on a
soft-deleted record violates it. -/
theorem c6_invariant_amended (db : Db) (hinv : DeletedImpliesUnavailable db) :
    (∀ c newId now, DeletedImpliesUnavailable (create c newId now db)) ∧
    (∀ id now, DeletedImpliesUnavailable (softDelete id now db).2) ∧
    (∀ id, DeletedImpliesUnavailable (incrementViewCount id db)) ∧
    (∀ id d now, d.isAvailable ≠ some true →
      DeletedImpliesUnavailable (updateState id d now db)) := by
  refine ⟨?_, ?_, ?_, ?_⟩
  · intro c newId now a ha hdel
    rcases List.mem_append.1 ha with hin | hnew
    · exact hinv a hin hdel
    · rcases List.mem_singleton.1 hnew with rfl
      exact absurd rfl hdel
  · intro id now a ha hdel
    rcases hfo : findOneWithDetails id db with _ | t
    · rw [softDelete, hfo] at ha
      exact hinv a ha hdel
    · rw [softDelete, hfo] at ha
      obtain ⟨o, ho, rfl⟩ := List.mem_map.1 ha
      by_cases hid : o.id = id
      · rw [if_pos (by simpa using hid)]
      · rw [if_neg (by simpa using hid)] at hdel ⊢
        exact hinv o ho hdel
  · intro id a ha hdel
    obtain ⟨o, ho, rfl⟩ := List.mem_map.1 ha
    by_cases hid : o.id = id
    · rw [if_pos (by simpa using hid)] at hdel ⊢
      exact hinv o ho hdel
    · rw [if_neg (by simpa using hid)] at hdel ⊢
      exact hinv o ho hdel
  · intro id d now hd a ha hdel
    obtain ⟨o, ho, rfl⟩ := List.mem_map.1 ha
    by_cases hid : o.id = id
    · rw [if_pos (by simpa using hid)] at hdel ⊢
      have hodel : o.deletedAt ≠ none := hdel
      have hoav : o.isAvailable = false := hinv o ho hodel
      rcases hda : d.isAvailable with _ | b
      · simp [applyUpdate, hda, hoav]
      · rcases b with _ | _
        · simp [applyUpdate, hda]
        · exact absurd hda hd
    · rw [if_neg (by simpa using hid)] at hdel ⊢
      exact hinv o ho hdel

/-- C6 amended witness: over the store `[apt3]` (one soft-deleted row)
the invariant survives a create, a soft delete, a view-count increment,
and an update that does not touch `isAvailable`. -/
theorem c6_invariant_amended_witness :
    DeletedImpliesUnavailable (create c0 7 9 [apt3]) ∧
    DeletedImpliesUnavailable (softDelete 3 9 [apt3]).2 ∧
    DeletedImpliesUnavailable (incrementViewCount 3 [apt3]) ∧
    DeletedImpliesUnavailable (updateState 3 { d0 with price := some 5 } 9 [apt3]) := by
  have h := c6_invariant_amended [apt3] (by decide)
  exact ⟨h.1 c0 7 9, h.2.1 3 9, h.2.2.1 3, h.2.2.2 3 _ 9 (by decide)⟩

/-- The non-deleted rows split into the available and the unavailable
ones. -/
theorem length_filter_nondeleted_split (db : Db) :
    (db.filter fun a => a.deletedAt == none).length
      = (db.filter fun a => a.isAvailable && a.deletedAt == none).length
        + (db.filter fun a => !a.isAvailable && a.deletedAt == none).length := by
  induction db with
  | nil => rfl
  | cons a t ih =>
    by_cases hdel : a.deletedAt = none
    · by_cases hav : a.isAvailable = true
      · simp [List.filter_cons, hdel, hav, ih]
        omega
      · have hav' : a.isAvailable = false := by
          cases h : a.isAvailable
          · rfl
          · exact absurd h hav
        simp [List.filter_cons, hdel, hav', ih]
        omega
    · have : (a.deletedAt == none) = false := by
        simpa using hdel
      simp [List.filter_cons, this, ih]

/-- C7: in the statistics report, `totalApartments` counts all
non-deleted rows regardless of availability, `availableApartments`
counts the available non-deleted rows, `unavailableApartments` is their
difference (the non-deleted unavailable rows), and the price average,
price range, project statistics and bedroom distribution are computed
over the available non-deleted rows only: a row that is deleted or
unavailable does not affect them, while a non-deleted unavailable row
still raises `totalApartments`. -/
theorem c7_statistics_scopes (db : Db) (now : Nat) :
    (getStatistics db now).totalApartments
        = (db.filter fun a => a.deletedAt == none).length ∧
    (getStatistics db now).availableApartments
        = (db.filter fun a => a.isAvailable && a.deletedAt == none).length ∧
    (getStatistics db now).totalApartments
        = (getStatistics db now).availableApartments
            + (db.filter fun a => !a.isAvailable && a.deletedAt == none).length ∧
    (getStatistics db now).unavailableApartments
        = (db.filter fun a => !a.isAvailable && a.deletedAt == none).length ∧
    (∀ x : Apartment, (x.isAvailable && x.deletedAt == none) = false →
      (getStatistics (x :: db) now).averagePrice
          = (getStatistics db now).averagePrice ∧
      (getStatistics (x :: db) now).priceRange = (getStatistics db now).priceRange ∧
      (getStatistics (x :: db) now).projectStats
          = (getStatistics db now).projectStats ∧
      (getStatistics (x :: db) now).bedroomDistribution
          = (getStatistics db now).bedroomDistribution ∧
      (getStatistics (x :: db) now).availableApartments
          = (getStatistics db now).availableApartments) ∧
    (∀ x : Apartment, x.deletedAt = none → x.isAvailable = false →
      (getStatistics (x :: db) now).totalApartments
          = (getStatistics db now).totalApartments + 1) := by
  have hsplit := length_filter_nondeleted_split db
  refine ⟨rfl, rfl, ?_, ?_, ?_, ?_⟩
  · exact hsplit
  · show (db.filter fun a => a.deletedAt == none).length
        - (availableRows db).length = _
    rw [show (availableRows db).length
        = (db.filter fun a => a.isAvailable && a.deletedAt == none).length from rfl]
    omega
  · intro x hx
    have hav : availableRows (x :: db) = availableRows db := by
      rw [availableRows, availableRows, List.filter_cons, hx]
      simp
    refine ⟨?_, ?_, ?_, ?_, ?_⟩
    · exact congrArg (fun (l : Db) => listAvg (l.map (·.price))) hav
    · exact congrArg
        (fun (l : Db) => PriceRange.mk (listMin (l.map (·.price)))
          (listMax (l.map (·.price)))) hav
    · exact congrArg
        (fun (l : Db) => sortByLe (fun x y => decide (y.count ≤ x.count))
          ((l.map (·.project)).dedup.map fun p =>
            ProjectStat.mk p (l.filter fun a => a.project == p).length
              (listAvg ((l.filter fun a => a.project == p).map (·.price))))) hav
    · exact congrArg
        (fun (l : Db) => sortByLe (fun x y => decide (x.bedrooms ≤ y.bedrooms))
          ((l.map (·.bedrooms)).dedup.map fun b =>
            BedroomStat.mk b (l.filter fun a => a.bedrooms == b).length)) hav
    · exact congrArg (fun (l : Db) => l.length) hav
  · intro x hxdel _
    show ((x :: db).filter fun a => a.deletedAt == none).length = _
    rw [List.filter_cons, if_pos (by simpa using hxdel)]
    rfl

/-- C7 witness: over `[apt1, apt3]` (one visible, one deleted) with an
extra non-deleted unavailable row: the counting scopes and the
aggregate-only-over-available behaviour at concrete values. -/
theorem c7_statistics_scopes_witness :
    (getStatistics [apt1, apt3] 7).totalApartments
        = (([apt1, apt3] : Db).filter fun a => a.deletedAt == none).length ∧
    (getStatistics [apt1, apt3] 7).availableApartments
        = (([apt1, apt3] : Db).filter
            fun a => a.isAvailable && a.deletedAt == none).length ∧
    (getStatistics [apt1, apt3] 7).unavailableApartments
        = (([apt1, apt3] : Db).filter
            fun a => !a.isAvailable && a.deletedAt == none).length ∧
    (getStatistics (apt3 :: [apt1, apt3]) 7).averagePrice
        = (getStatistics [apt1, apt3] 7).averagePrice ∧
    (getStatistics (apt3 :: [apt1, apt3]) 7).priceRange
        = (getStatistics [apt1, apt3] 7).priceRange ∧
    (getStatistics (apt3 :: [apt1, apt3]) 7).projectStats
        = (getStatistics [apt1, apt3] 7).projectStats ∧
    (getStatistics (apt3 :: [apt1, apt3]) 7).bedroomDistribution
        = (getStatistics [apt1, apt3] 7).bedroomDistribution ∧
    (getStatistics ({ apt1 with id := 4, isAvailable := false } :: [apt1, apt3]) 7).totalApartments
        = (getStatistics [apt1, apt3] 7).totalApartments + 1 := by
  have h := c7_statistics_scopes [apt1, apt3] 7
  have hx := h.2.2.2.2.1 apt3 (by decide)
  exact ⟨h.1, h.2.1, h.2.2.2.1, hx.1, hx.2.1, hx.2.2.1, hx.2.2.2.1,
    h.2.2.2.2.2 { apt1 with id := 4, isAvailable := false } rfl rfl⟩

/-- C4: `findSimilar` returns at most `limit` records; when the target
is not visible (absent, deleted or unavailable) it returns the empty
list; every returned record is a stored, available, non-deleted record
other than the target, with the target's bedroom count and a price
within the inclusive ±20 % band of the target's price; and the result is
ordered by `viewCount` descending. -/
theorem c4_findSimilar (id limit : Nat) (db : Db) :
    (findOneWithDetails id db = none → findSimilar id limit db = []) ∧
    (findSimilar id limit db).length ≤ limit ∧
    (∀ t, findOneWithDetails id db = some t →
      ∀ a ∈ findSimilar id limit db,
        a ∈ db ∧ a.id ≠ id ∧ a.isAvailable = true ∧ a.deletedAt = none ∧
        a.bedrooms = t.bedrooms ∧
        t.price - t.price * (1 / 5 : ℚ) ≤ a.price ∧
        a.price ≤ t.price + t.price * (1 / 5 : ℚ)) ∧
    (findSimilar id limit db).Pairwise (fun x y => y.viewCount ≤ x.viewCount) := by
  have htot : ∀ x y : Apartment,
      (decide (y.viewCount ≤ x.viewCount)) = false →
        (decide (x.viewCount ≤ y.viewCount)) = true := by
    intro x y h
    simp only [decide_eq_false_iff_not, not_le] at h
    simpa using h.le
  have htrans : ∀ x y z : Apartment,
      (decide (y.viewCount ≤ x.viewCount)) = true →
        (decide (z.viewCount ≤ y.viewCount)) = true →
        (decide (z.viewCount ≤ x.viewCount)) = true := by
    intro x y z h1 h2
    simp only [decide_eq_true_eq] at h1 h2 ⊢
    exact h2.trans h1
  refine ⟨?_, ?_, ?_, ?_⟩
  · intro h
    rw [findSimilar, h]
  · rcases hfo : findOneWithDetails id db with _ | t
    · rw [findSimilar, hfo]
      simp
    · rw [findSimilar, hfo]
      exact List.length_take_le _ _
  · intro t ht a ha
    rw [findSimilar, ht] at ha
    have h1 : a ∈ sortByLe (fun x y => decide (y.viewCount ≤ x.viewCount))
        (db.filter (similarWhere id t)) := (List.take_sublist _ _).subset ha
    have h2 : a ∈ db.filter (similarWhere id t) := (mem_sortByLe _ _ _).1 h1
    have hmem := (List.mem_filter.1 h2).1
    have hw := (List.mem_filter.1 h2).2
    rw [similarWhere] at hw
    simp only [Bool.and_eq_true, Bool.not_eq_true', beq_iff_eq, beq_eq_false_iff_ne,
      decide_eq_true_eq] at hw
    exact ⟨hmem, hw.1.1.1.1.1, hw.1.2, hw.2, hw.1.1.1.1.2, hw.1.1.1.2, hw.1.1.2⟩
  · rcases hfo : findOneWithDetails id db with _ | t
    · rw [findSimilar, hfo]
      simp
    · rw [findSimilar, hfo]
      refine List.Pairwise.imp ?_
        (List.Pairwise.sublist (List.take_sublist _ _)
          (pairwise_sortByLe htot htrans (db.filter (similarWhere id t))))
      intro x y h
      simpa using h

/-- C4 witness: with target `apt1` (price 1000, 2 bedrooms) over a store
holding `apt1`, the similar `apt2` and the deleted `apt3`: an invisible
target id gives the empty list, the result is `[apt2]` within the limit,
and `apt2` satisfies every similarity condition. -/
theorem c4_findSimilar_witness :
    findSimilar 9 3 [apt1, apt2, apt3] = [] ∧
    (findSimilar 1 3 [apt1, apt2, apt3]).length ≤ 3 ∧
    findSimilar 1 3 [apt1, apt2, apt3] = [apt2] ∧
    (apt2 ∈ ([apt1, apt2, apt3] : Db) ∧ apt2.id ≠ 1 ∧ apt2.isAvailable = true ∧
      apt2.deletedAt = none ∧ apt2.bedrooms = apt1.bedrooms ∧
      apt1.price - apt1.price * (1 / 5 : ℚ) ≤ apt2.price ∧
      apt2.price ≤ apt1.price + apt1.price * (1 / 5 : ℚ)) := by
  have hfo : findOneWithDetails 1 [apt1, apt2, apt3] = some apt1 := by decide
  have e1 : similarWhere 1 apt1 apt1 = false := by
    simp [similarWhere, apt1]
  have e2 : similarWhere 1 apt1 apt2 = true := by
    rw [similarWhere]
    simp only [Bool.and_eq_true, decide_eq_true_eq, beq_iff_eq, Bool.not_eq_true',
      beq_eq_false_iff_ne]
    norm_num [apt1, apt2]
  have e3 : similarWhere 1 apt1 apt3 = false := by
    simp [similarWhere, apt3, apt1]
  have hfilter : List.filter (similarWhere 1 apt1) [apt1, apt2, apt3] = [apt2] := by
    simp [List.filter_cons, e1, e2, e3]
  have hall : findSimilar 1 3 [apt1, apt2, apt3] = [apt2] := by
    rw [findSimilar, hfo]
    dsimp only
    rw [hfilter]
    rfl
  have h := c4_findSimilar 1 3 [apt1, apt2, apt3]
  exact ⟨(c4_findSimilar 9 3 [apt1, apt2, apt3]).1 (by decide), h.2.1, hall,
    h.2.2.1 apt1 hfo apt2 (by rw [hall]; exact List.mem_singleton.2 rfl)⟩

/-! ### The slug pipeline: collapse-and-trim equals runs-joined-by-dashes -/

theorem collapse_nil : collapseNonAlnum [] = [] := by
  simp [collapseNonAlnum]

theorem collapse_cons_pos (c : Char) (cs : Str) (hc : isSlugChar c = true) :
    collapseNonAlnum (c :: cs) = c :: collapseNonAlnum cs := by
  rw [collapseNonAlnum]
  simp [hc]

theorem collapse_cons_neg (c : Char) (cs : Str) (hc : isSlugChar c = false) :
    collapseNonAlnum (c :: cs)
      = '-' :: collapseNonAlnum (cs.dropWhile (fun d => !isSlugChar d)) := by
  rw [collapseNonAlnum]
  simp [hc]

theorem runs_nil : alnumRuns [] = [] := by
  simp [alnumRuns]

theorem runs_cons_pos (c : Char) (cs : Str) (hc : isSlugChar c = true) :
    alnumRuns (c :: cs)
      = (c :: cs.takeWhile isSlugChar) :: alnumRuns (cs.dropWhile isSlugChar) := by
  rw [alnumRuns]
  simp [hc]

theorem runs_cons_neg (c : Char) (cs : Str) (hc : isSlugChar c = false) :
    alnumRuns (c :: cs) = alnumRuns (cs.dropWhile (fun d => !isSlugChar d)) := by
  rw [alnumRuns]
  simp [hc]

theorem dropWhile_head_not {p : Char → Bool} (l : Str) (x : Char) (rest : Str)
    (h : l.dropWhile p = x :: rest) : p x = false := by
  induction l with
  | nil => simp at h
  | cons a t ih =>
    rw [List.dropWhile_cons] at h
    by_cases ha : p a = true
    · rw [if_pos ha] at h
      exact ih h
    · rw [if_neg ha] at h
      injection h with h1 _
      subst h1
      exact Bool.not_eq_true _ ▸ ha

theorem getLast?_dropWhile (p : Char → Bool) (l : Str)
    (h : l.dropWhile p ≠ []) : l.getLast? = (l.dropWhile p).getLast? := by
  conv_lhs => rw [← List.takeWhile_append_dropWhile p l]
  rw [List.getLast?_append, List.getLast?_eq_getLast _ h]
  rfl

theorem runs_eq_nil_allSep : ∀ l : Str, alnumRuns l = [] →
    ∀ c ∈ l, isSlugChar c = false := by
  intro l
  induction l using alnumRuns.induct with
  | case1 =>
    intro _ c hc
    simp at hc
  | case2 c cs hc _ =>
    intro h
    rw [runs_cons_pos _ _ hc] at h
    simp at h
  | case3 c cs hc ih =>
    intro h d hd
    rw [runs_cons_neg _ _ (by simpa using hc)] at h
    rcases List.mem_cons.1 hd with rfl | hdcs
    · simpa using hc
    · have hdc2 : d ∈ cs.takeWhile (fun d => !isSlugChar d)
          ++ cs.dropWhile (fun d => !isSlugChar d) := by
        rw [List.takeWhile_append_dropWhile]
        exact hdcs
      rcases List.mem_append.1 hdc2 with h1 | h2
      · simpa using List.mem_takeWhile_imp h1
      · exact ih h d h2

theorem collapse_allSep (l : Str) (hall : ∀ c ∈ l, isSlugChar c = false)
    (hne : l ≠ []) : collapseNonAlnum l = ['-'] := by
  cases l with
  | nil => exact absurd rfl hne
  | cons c cs =>
    rw [collapse_cons_neg _ _ (hall c (List.mem_cons_self _ _))]
    have hd : cs.dropWhile (fun d => !isSlugChar d) = [] :=
      List.dropWhile_eq_nil_iff.2
        (fun d hdm => by simp [hall d (List.mem_cons_of_mem _ hdm)])
    rw [hd, collapse_nil]

theorem joinDash_cons_of_ne (r : Str) (rs : List Str) (h : rs ≠ []) :
    joinDash (r :: rs) = r ++ '-' :: joinDash rs := by
  cases rs with
  | nil => exact absurd rfl h
  | cons r2 rs2 => rfl

theorem joinDash_cons_head (c : Char) (x : Str) (rs : List Str) :
    joinDash ((c :: x) :: rs) = c :: joinDash (x :: rs) := by
  cases rs with
  | nil => rfl
  | cons r2 rs2 => rfl

theorem leadDash_cons (c : Char) (t : Str) :
    leadDash (c :: t) = if isSlugChar c then [] else ['-'] := rfl

theorem tailDash_cons_cons (a b : Char) (l : Str) :
    tailDash (a :: b :: l) = tailDash (b :: l) := by
  unfold tailDash
  rw [List.getLast?_cons_cons]

theorem dropLeadDash_dash (t : Str) : dropLeadDash ('-' :: t) = t := rfl

theorem dropLeadDash_ne (c : Char) (t : Str) (h : c ≠ '-') :
    dropLeadDash (c :: t) = c :: t := by
  rw [dropLeadDash.eq_def]
  split
  · rename_i heq
    injection heq with h1 _
    exact absurd h1 h
  · rfl

theorem runs_all_alnum : ∀ l : Str, ∀ r ∈ alnumRuns l,
    ∃ e t, r = e :: t ∧ ∀ d ∈ r, isSlugChar d = true := by
  intro l
  induction l using alnumRuns.induct with
  | case1 =>
    intro r hr
    rw [runs_nil] at hr
    simp at hr
  | case2 c cs hc ih =>
    intro r hr
    rw [runs_cons_pos _ _ hc] at hr
    rcases List.mem_cons.1 hr with rfl | hrec
    · refine ⟨c, cs.takeWhile isSlugChar, rfl, ?_⟩
      intro d hd
      rcases List.mem_cons.1 hd with rfl | hdt
      · exact hc
      · exact List.mem_takeWhile_imp hdt
    · exact ih r hrec
  | case3 c cs hc ih =>
    intro r hr
    rw [runs_cons_neg _ _ (by simpa using hc)] at hr
    exact ih r hr

theorem joinDash_last_alnum : ∀ rs : List Str, rs ≠ [] →
    (∀ r ∈ rs, ∃ e t, r = e :: t ∧ ∀ d ∈ r, isSlugChar d = true) →
    ∃ e, (joinDash rs).getLast? = some e ∧ isSlugChar e = true := by
  intro rs
  induction rs with
  | nil => intro h; exact absurd rfl h
  | cons r rs2 ih =>
    intro _ hall
    cases rs2 with
    | nil =>
      obtain ⟨e, t, rfl, hrall⟩ := hall r (List.mem_cons_self _ _)
      have hne : (e :: t) ≠ [] := by simp
      exact ⟨(e :: t).getLast hne, List.getLast?_eq_getLast _ hne,
        hrall _ (List.getLast_mem hne)⟩
    | cons r2 rs3 =>
      obtain ⟨e, he, hPe⟩ := ih (by simp)
        (fun r' hr' => hall r' (List.mem_cons_of_mem _ hr'))
      have hJne : joinDash (r2 :: rs3) ≠ [] := by
        intro h0
        rw [h0] at he
        simp at he
      refine ⟨e, ?_, hPe⟩
      rw [joinDash_cons_of_ne _ _ (by simp), List.getLast?_append]
      have : ('-' :: joinDash (r2 :: rs3)).getLast? = some e := by
        cases hJ : joinDash (r2 :: rs3) with
        | nil => exact absurd hJ hJne
        | cons j js =>
          rw [hJ] at he
          rw [List.getLast?_cons_cons, he]
      rw [this]
      rfl

theorem leadDash_cases (l : Str) : leadDash l = [] ∨ leadDash l = ['-'] := by
  cases l with
  | nil => exact Or.inl rfl
  | cons c t =>
    rw [leadDash_cons]
    by_cases hc : isSlugChar c = true
    · exact Or.inl (by rw [if_pos hc])
    · exact Or.inr (by rw [if_neg hc])

theorem tailDash_cases (l : Str) : tailDash l = [] ∨ tailDash l = ['-'] := by
  unfold tailDash
  cases l.getLast? with
  | none => exact Or.inl rfl
  | some c =>
    by_cases hc : isSlugChar c = true
    · exact Or.inl (by simp [hc])
    · exact Or.inr (by simp [hc])

/-- Structure of the collapsed string when at least one alphanumeric run
exists: an optional leading dash, the runs joined by single dashes, and
an optional trailing dash. -/
theorem collapse_runs_form : ∀ (n : Nat) (l : Str), l.length ≤ n →
    alnumRuns l ≠ [] →
    collapseNonAlnum l = leadDash l ++ joinDash (alnumRuns l) ++ tailDash l := by
  intro n
  induction n with
  | zero =>
    intro l hl hne
    have h0 : l = [] := List.length_eq_zero.1 (Nat.le_zero.1 hl)
    subst h0
    exact absurd runs_nil hne
  | succ n ih =>
    intro l hl hne
    cases l with
    | nil => exact absurd runs_nil hne
    | cons c cs =>
      by_cases hc : isSlugChar c = true
      · cases cs with
        | nil =>
          rw [collapse_cons_pos _ _ hc, collapse_nil, runs_cons_pos _ _ hc]
          simp [runs_nil, joinDash, leadDash_cons, tailDash, hc]
        | cons d t =>
          by_cases hd : isSlugChar d = true
          · have hlen : (d :: t).length ≤ n := by
              simp only [List.length_cons] at hl ⊢
              omega
            have hrcs : alnumRuns (d :: t) ≠ [] := by
              rw [runs_cons_pos _ _ hd]
              simp
            have IH := ih (d :: t) hlen hrcs
            rw [collapse_cons_pos _ _ hc, IH, runs_cons_pos _ _ hc,
              List.takeWhile_cons, if_pos hd, List.dropWhile_cons, if_pos hd,
              joinDash_cons_head, ← runs_cons_pos _ _ hd, tailDash_cons_cons]
            simp [leadDash_cons, hc, hd]
          · rw [collapse_cons_pos _ _ hc, runs_cons_pos _ _ hc,
              List.takeWhile_cons, if_neg (by simpa using hd),
              List.dropWhile_cons, if_neg (by simpa using hd)]
            by_cases hrcs : alnumRuns (d :: t) = []
            · have hall := runs_eq_nil_allSep _ hrcs
              have hcoll : collapseNonAlnum (d :: t) = ['-'] :=
                collapse_allSep _ hall (by simp)
              rw [hcoll, hrcs]
              have hne2 : (d :: t) ≠ [] := by simp
              have htd : tailDash (d :: t) = ['-'] := by
                unfold tailDash
                rw [List.getLast?_eq_getLast _ hne2]
                simp [hall _ (List.getLast_mem hne2)]
              rw [tailDash_cons_cons, htd]
              simp [leadDash_cons, hc, joinDash]
            · have hlen : (d :: t).length ≤ n := by
                simp only [List.length_cons] at hl ⊢
                omega
              have IH := ih (d :: t) hlen hrcs
              rw [IH, joinDash_cons_of_ne _ _ hrcs, tailDash_cons_cons]
              simp [leadDash_cons, hc, hd]
      · rw [collapse_cons_neg _ _ (by simpa using hc)]
        rw [runs_cons_neg _ _ (by simpa using hc)] at hne ⊢
        have hcs'ne : cs.dropWhile (fun d => !isSlugChar d) ≠ [] := by
          intro h0
          rw [h0, runs_nil] at hne
          exact hne rfl
        obtain ⟨x, rest, hx⟩ : ∃ x rest,
            cs.dropWhile (fun d => !isSlugChar d) = x :: rest := by
          cases hh : cs.dropWhile (fun d => !isSlugChar d) with
          | nil => exact absurd hh hcs'ne
          | cons x r => exact ⟨x, r, rfl⟩
        have hPx : isSlugChar x = true := by
          have := dropWhile_head_not (p := fun d => !isSlugChar d) cs x rest hx
          simpa using this
        have hlen : (cs.dropWhile (fun d => !isSlugChar d)).length ≤ n := by
          have h1 := (List.dropWhile_sublist (l := cs) (fun d => !isSlugChar d)).length_le
          simp only [List.length_cons] at hl
          omega
        have IH := ih _ hlen hne
        rw [IH]
        have hcsne : cs ≠ [] := by
          intro h0
          subst h0
          simp at hcs'ne
        have hg : (c :: cs).getLast? = (cs.dropWhile (fun d => !isSlugChar d)).getLast? := by
          have h1 : (c :: cs).getLast? = cs.getLast? := by
            cases cs with
            | nil => exact absurd rfl hcsne
            | cons a b => exact List.getLast?_cons_cons
          rw [h1]
          exact getLast?_dropWhile _ _ hcs'ne
        have htail : tailDash (c :: cs) = tailDash (cs.dropWhile (fun d => !isSlugChar d)) := by
          unfold tailDash
          rw [hg]
        rw [htail, hx]
        simp [leadDash_cons, hc, hPx]

/-- Trimming removes exactly the optional boundary dashes around a body
that starts and ends with alphanumeric characters. -/
theorem trimDash_shape (lead body trail : Str)
    (hl : lead = [] ∨ lead = ['-']) (ht : trail = [] ∨ trail = ['-'])
    (hhead : ∃ c t, body = c :: t ∧ isSlugChar c = true)
    (hlast : ∃ e, body.getLast? = some e ∧ isSlugChar e = true) :
    trimDash (lead ++ body ++ trail) = body := by
  obtain ⟨c, t, rfl, hc⟩ := hhead
  obtain ⟨e, he, hPe⟩ := hlast
  have hcne : c ≠ '-' := by
    intro h0
    rw [h0] at hc
    simp [isSlugChar] at hc
  have hene : e ≠ '-' := by
    intro h0
    rw [h0] at hPe
    simp [isSlugChar] at hPe
  have step1 : dropLeadDash (lead ++ (c :: t) ++ trail) = (c :: t) ++ trail := by
    rcases hl with rfl | rfl
    · rw [List.nil_append, List.cons_append, dropLeadDash_ne _ _ hcne,
        ← List.cons_append]
    · rw [show (['-'] ++ (c :: t) ++ trail) = '-' :: ((c :: t) ++ trail) by simp,
        dropLeadDash_dash]
  have step2 : dropLeadDash (((c :: t) ++ trail).reverse) = ((c :: t).reverse) := by
    rcases ht with rfl | rfl
    · rw [List.append_nil]
      cases hrev : (c :: t).reverse with
      | nil => simp at hrev
      | cons x r =>
        have hx : (c :: t).getLast? = some x := by
          rw [← List.head?_reverse, hrev]
          rfl
        have hxe : x = e := by
          rw [hx] at he
          injection he
        exact dropLeadDash_ne x r (hxe ▸ hene)
    · rw [List.reverse_append]
      rw [show (['-'] : Str).reverse = ['-'] from rfl]
      rw [show (['-'] : Str) ++ (c :: t).reverse = '-' :: (c :: t).reverse by simp,
        dropLeadDash_dash]
  rw [trimDash, step1, step2, List.reverse_reverse]

/-- Collapsing the non-alphanumeric runs and trimming boundary dashes is
the same as joining the maximal alphanumeric runs with single dashes. -/
theorem trim_collapse_eq_joinDash_runs (l : Str) :
    trimDash (collapseNonAlnum l) = joinDash (alnumRuns l) := by
  by_cases hr : alnumRuns l = []
  · rw [hr]
    cases l with
    | nil =>
      rw [collapse_nil]
      rfl
    | cons c cs =>
      rw [collapse_allSep _ (runs_eq_nil_allSep _ hr) (by simp)]
      rfl
  · have hform := collapse_runs_form l.length l le_rfl hr
    rw [hform]
    apply trimDash_shape _ _ _ (leadDash_cases l) (tailDash_cases l)
    · obtain ⟨r, rs, hrs⟩ : ∃ r rs, alnumRuns l = r :: rs := by
        cases hh : alnumRuns l with
        | nil => exact absurd hh hr
        | cons r rs => exact ⟨r, rs, rfl⟩
      obtain ⟨e, t, rfl, hall⟩ := runs_all_alnum l r (by rw [hrs]; simp)
      rw [hrs, joinDash_cons_head]
      exact ⟨e, joinDash (t :: rs), rfl, hall e (List.mem_cons_self _ _)⟩
    · exact joinDash_last_alnum (alnumRuns l) hr (runs_all_alnum l)

/-- The slug the service generates is exactly the claim's description:
lower-cased, maximal alphanumeric runs joined by single dashes. -/
theorem generateSlug_eq_slugSpec (unitName unitNumber : Str) :
    generateSlug unitName unitNumber = slugSpec unitName unitNumber :=
  trim_collapse_eq_joinDash_runs _

/-- C8: `create` stores the new record with a slug equal to the
lower-cased concatenation of `unitName` and `unitNumber` (joined by a
separator) with every maximal run of non-alphanumeric characters
collapsed to a single `'-'` and leading/trailing separators removed
(formally: the dash-join of the maximal alphanumeric runs), and
`update` never changes any stored slug, even when `unitName` or
`unitNumber` change. -/
theorem c8_slug (c : CreateApartmentDto) (newId now : Nat) (db : Db) :
    (create c newId now db).map (·.slug)
      = db.map (·.slug) ++ [slugSpec c.unitName c.unitNumber] ∧
    (∀ id d now2 db2, (updateState id d now2 db2).map (·.slug)
      = (db2 : Db).map (·.slug)) ∧
    generateSlug c.unitName c.unitNumber = slugSpec c.unitName c.unitNumber := by
  refine ⟨?_, ?_, generateSlug_eq_slugSpec _ _⟩
  · rw [create, List.map_append]
    simp [generateSlug_eq_slugSpec]
  · intro id d now2 db2
    rw [updateState, List.map_map]
    apply List.map_congr_left
    intro a _
    simp only [Function.comp_apply]
    by_cases hid : a.id = id
    · rw [if_pos (by simpa using hid)]
      rfl
    · rw [if_neg (by simpa using hid)]

/-- C8 witness: creating `New Flat` / `B2` over an empty store stores
exactly the spec-described slug, and an update that changes the unit
name leaves the stored slugs unchanged. -/
theorem c8_slug_witness :
    (create c0 7 9 []).map (·.slug) = [slugSpec c0.unitName c0.unitNumber] ∧
    generateSlug c0.unitName c0.unitNumber = slugSpec c0.unitName c0.unitNumber ∧
    (updateState 1 { d0 with unitName := some ['z'] } 9 [apt1]).map (·.slug)
      = ([apt1] : Db).map (·.slug) := by
  have h := c8_slug c0 7 9 []
  exact ⟨h.1, h.2.2, h.2.1 1 { d0 with unitName := some ['z'] } 9 [apt1]⟩

end ApartmentsSvc
